import Mathlib

/-!
Verification of the computational core of luna/Dataframes:
the sort/permutation engine (`native_libs/src/Sort.cpp`), the expression
interpreter (`Interpreter.cpp`), and the XLSX import adapter
(`native_libs/src/XLSX.cpp`), shallowly embedded in Lean.

Columns are modeled at element type int64 (Lean `Int`); the C++ code is
type-generic via `visitType` dispatch, and every claim under study is about
a single instantiated element type, so the embedding instantiates it.
C++ `int64_t` arithmetic is modeled by mathematical integers: the claims
only exercise small values, and signed overflow is undefined behaviour in
the source language.
-/

namespace Dataframes

namespace Sorting

/-- `SortOrder` tag (Sort.h / Sort.cpp dispatch): ascending or descending. -/
inductive SortOrder where
  | Ascending
  | Descending
deriving DecidableEq, Repr

/-- `NullPosition` tag: whether nulls are placed before or after non-nulls. -/
inductive NullPosition where
  | Before
  | After
deriving DecidableEq, Repr

/-- The `compareRawValues` lambda of `sortPermutationInner` (Sort.cpp:106-112):
`lhs < rhs` for `Ascending`, `lhs > rhs` for `Descending`. -/
def compareRawValues (order : SortOrder) (lhs rhs : Int) : Bool :=
  match order with
  | .Ascending => decide (lhs < rhs)
  | .Descending => decide (lhs > rhs)

/-- The `compareValues` lambda of `sortPermutationInner` (Sort.cpp:114-136),
in its nullable specialization; a cell is `none` when the null bitmap marks
it invalid.  On a column with `null_count() == 0` the non-nullable
specialization runs, whose comparator coincides with this one on all-`some`
cells, so the single function models both dispatch branches. -/
def compareValues (order : SortOrder) (nulls : NullPosition)
    (lhs rhs : Option Int) : Bool :=
  match lhs, rhs with
  | some l, some r => compareRawValues order l r
  | none, none => false
  | some _, none => nulls == NullPosition.After
  | none, some _ => nulls == NullPosition.Before

/-- A sort key (`SortBy` in Sort.h): the referenced column's cell sequence
(`toVector<ActualObservedType>(sortBy)` in Sort.cpp:140 materializes exactly
this), the sort order, and the null placement. -/
structure SortBy where
  column : List (Option Int)
  order : SortOrder
  nulls : NullPosition

/-- The comparator handed to `std::stable_sort` (Sort.cpp:141-146), applied
to two row indices: compare `valuesAsVector[lhsIndex]` against
`valuesAsVector[rhsIndex]`.  Indices are always in range in the source
(the permutation is a permutation of the column's rows); out-of-range
lookups default to `none`. -/
def keyComp (k : SortBy) (i j : Nat) : Bool :=
  compareValues k.order k.nulls (k.column.getD i none) (k.column.getD j none)

/-- One stage of `sortPermutationInner` (Sort.cpp:140-146): a stable sort of
the current permutation using only this key's column as comparator.
`std::stable_sort` with strict-weak-order comparator `comp` is modeled by
the stable `List.mergeSort` with `le a b := ¬ comp b a`. -/
def sortPermutationInner (k : SortBy) (indices : List Nat) : List Nat :=
  indices.mergeSort (fun i j => ! keyComp k j i)

/-- `sortPermutation` (Sort.cpp:167-181): error on an empty key list,
otherwise start from the identity permutation sized to the first key's
column length and fold the per-key stable sorts over the reversed key
list (least-significant key first). -/
def sortPermutation (sortBy : List SortBy) : Except String (List Nat) :=
  match sortBy with
  | [] => .error "no column to sort by"
  | k :: _ =>
    let indices := List.range k.column.length
    .ok ((sortBy.reverse).foldl (fun ind key => sortPermutationInner key ind) indices)

/-- A column as the permuting path sees it: a list of contiguous chunks,
each chunk a list of cells (`none` = null). -/
structure Column where
  chunks : List (List (Option Int))
deriving DecidableEq, Repr

instance : Inhabited Column := ⟨⟨[]⟩⟩

/-- `ChunkAccessor::locate` followed by the `IsValid`/`arrayValueAt` read in
`permuteInnerToArray` (Sort.cpp:44-54): walk the chunk list to the chunk
containing global index `i` and read that cell.  In-range in the source;
out-of-range reads default to `none`. -/
def locate (chunks : List (List (Option Int))) (i : Nat) : Option Int :=
  match chunks with
  | [] => none
  | c :: rest => if i < c.length then c.getD i none else locate rest (i - c.length)

/-- `permuteInnerToArray` (Sort.cpp:29-59): build a fresh single array whose
row `r` is the cell of the source column at global index `indices[r]`
(appending a null marker when the source cell is null). -/
def permuteInnerToArray (col : Column) (indices : List Nat) : List (Option Int) :=
  indices.map (fun i => locate col.chunks i)

/-- `permuteInner` on a column (Sort.cpp:76-79): wrap the freshly built
array (a single chunk) as a new column. -/
def permuteInnerColumn (col : Column) (indices : List Nat) : Column :=
  ⟨[permuteInnerToArray col indices]⟩

/-- `isPermuteId` (Sort.cpp:88-94): `indices[i] == i` for every position. -/
def isPermuteId (indices : List Nat) : Bool :=
  (List.range indices.length).all (fun i => indices.getD i 0 == i)

/-- `permute` on a column (Sort.cpp:194-200): identity fast path returns the
input column itself, otherwise the copying path. -/
def permuteColumn (col : Column) (indices : List Nat) : Column :=
  if isPermuteId indices then col else permuteInnerColumn col indices

/-- A table for the permuting path: its ordered columns.  The source also
carries a schema, reattached unchanged (`arrow::Table::Make(table->schema(), …)`);
the claims are about rows and columns, so the embedding keeps the columns. -/
def Table := List Column

/-- `permuteInner` on a table (Sort.cpp:81-86): permute every column
independently. -/
def permuteInnerTable (t : Table) (indices : List Nat) : Table :=
  t.map (fun c => permuteInnerColumn c indices)

/-- `permute` on a table (Sort.cpp:202-208): identity fast path returns the
input table itself, otherwise the copying path. -/
def permuteTable (t : Table) (indices : List Nat) : Table :=
  if isPermuteId indices then t else permuteInnerTable t indices

/-- The cell of a column at a global row index (chunks concatenated). -/
def Column.cellAt (c : Column) (i : Nat) : Option Int :=
  c.chunks.flatten.getD i none

/-- The `le` relation induced on row indices by one key's comparator:
`std::stable_sort`'s ordering guarantee is `¬ comp(b, a)` for consecutive
elements, i.e. "a not strictly after b" under this key. -/
def keyLe (k : SortBy) (i j : Nat) : Bool :=
  ! keyComp k j i

/-- Rows `i` and `j` compare equal under key `k` (neither precedes the other). -/
def equivKey (k : SortBy) (i j : Nat) : Bool :=
  ! keyComp k i j && ! keyComp k j i

/-- The per-key fold of `sortPermutation` (Sort.cpp:174-178) written as a
right fold over the original key order: the reversed-list left fold of the
source is exactly this (`List.foldl_reverse`), so the most-significant key's
stable sort runs last. -/
def applyKeys (keys : List SortBy) (indices : List Nat) : List Nat :=
  keys.foldr (fun k ind => sortPermutationInner k ind) indices

/-- Lexicographic strict "row i before row j" over a key list, first key most
significant: the first key under which the rows differ decides. -/
def lexComp (keys : List SortBy) (i j : Nat) : Bool :=
  match keys with
  | [] => false
  | k :: ks => keyComp k i j || (! keyComp k j i && lexComp ks i j)

/-- Rank encoding of a cell for one key configuration: `compareValues` is
exactly the lexicographic strict order on these integer pairs.  Proof
device only (not part of the modeled code). -/
def keyRank (order : SortOrder) (nulls : NullPosition) : Option Int → Int × Int
  | none => ((if nulls = NullPosition.Before then 0 else 2), 0)
  | some v => (1, (if order = SortOrder.Ascending then v else -v))

/-- The rank of row `i` under key `k`. -/
def rowRank (k : SortBy) (i : Nat) : Int × Int :=
  keyRank k.order k.nulls (k.column.getD i none)

/-- Does row `i` hold a null cell of column `col`? -/
def isNullCell (col : List (Option Int)) (i : Nat) : Bool :=
  (col.getD i none).isNone

/-- The row indices of `col`'s null cells, in input order. -/
def nullIdx (col : List (Option Int)) : List Nat :=
  (List.range col.length).filter (fun i => isNullCell col i)

/-- The non-null value of row `i` (0 for a null cell; used only on non-null rows). -/
def cellVal (col : List (Option Int)) (i : Nat) : Int :=
  (col.getD i none).getD 0

/-- The non-null rows of a permutation `p`, in `p`'s order. -/
def notNullRun (col : List (Option Int)) (p : List Nat) : List Nat :=
  p.filter (fun i => ! isNullCell col i)

end Sorting

namespace Interp

/-- A per-row value as the interpreter's kernels see it (the operand of an
`Operation::exec` call): an `int64_t`, a `double`, a `std::string`, or the
`bool` produced by a relational operator.  `double` is modeled by Lean's
IEEE-754 `Float`. -/
inductive CVal where
  | i (v : Int)
  | d (v : Float)
  | s (v : String)
  | b (v : Bool)

/-- Model of `typeid(value).name()` for the element types appearing in
operands (Interpreter.cpp:58).  The concrete C++ spellings are
platform-mangled; readable names are used, which is faithful up to a fixed
renaming of type identifiers. -/
def cvalTypeName : CVal → String
  | .i _ => "int64_t"
  | .d _ => "double"
  | .s _ => "std::string"
  | .b _ => "bool"

/-- The message of the mismatch branch of the `BINARY_OPERATOR` macro
(Interpreter.cpp:55-60): it names the two operand element types and
nothing else. -/
def mismatchMsg (a c : CVal) : String :=
  "not supported operand types: " ++ cvalTypeName a ++ " and " ++ cvalTypeName c

/-- The four operator functors the interpreter actually instantiates
(Interpreter.cpp:62-90 together with the dispatch sites at 171-174 and
195-206): `Plus` for value operations, `GreaterThan`/`LessThan`/`EqualTo`
for comparison predicates.  `Minus`, `Times`, `Divide` and `Negate` are
declared in the source but unreachable (the `op.what` switch only handles
`Plus` and the three comparisons). -/
inductive BinOp where
  | plus
  | greaterThan
  | lessThan
  | equalTo

/-- `Operation::exec` per element (the `BINARY_OPERATOR` macro): defined when
both operands have the same element type, otherwise the mismatch overload
throws.  String `+` is concatenation and string comparisons are
lexicographic, as for `std::string`. -/
def binOpExec : BinOp → CVal → CVal → Except String CVal
  | .plus, .i a, .i c => .ok (.i (a + c))
  | .plus, .d a, .d c => .ok (.d (a + c))
  | .plus, .s a, .s c => .ok (.s (a ++ c))
  | .greaterThan, .i a, .i c => .ok (.b (decide (a > c)))
  | .greaterThan, .d a, .d c => .ok (.b (a > c))
  | .greaterThan, .s a, .s c => .ok (.b (decide (a > c)))
  | .lessThan, .i a, .i c => .ok (.b (decide (a < c)))
  | .lessThan, .d a, .d c => .ok (.b (a < c))
  | .lessThan, .s a, .s c => .ok (.b (decide (a < c)))
  | .equalTo, .i a, .i c => .ok (.b (decide (a = c)))
  | .equalTo, .d a, .d c => .ok (.b (a == c))
  | .equalTo, .s a, .s c => .ok (.b (a == c))
  | _, a, c => .error (mismatchMsg a c)

/-- The interpreter's `Field` variant (Interpreter.cpp:134): a scalar
`int64_t` or `double` (from literals), or an array operand of `int64_t`,
`double` or `std::string` elements.  An `ArrayOperand` is modeled by its
element sequence; the underlying buffer either wraps a column's storage or
is freshly allocated, which value equality of the sequence captures. -/
inductive Field where
  | intS (v : Int)
  | doubleS (v : Float)
  | arrInt (a : List Int)
  | arrDouble (a : List Float)
  | arrString (a : List String)

/-- The element type of an operand, as fixed statically in the source by the
`nonstd::visit` over the `Field` variant. -/
inductive ElemKind where
  | eInt
  | eDouble
  | eString
deriving DecidableEq, Repr

/-- The element kind of each `Field` alternative. -/
def elemKind : Field → ElemKind
  | .intS _ => .eInt
  | .doubleS _ => .eDouble
  | .arrInt _ => .eInt
  | .arrDouble _ => .eDouble
  | .arrString _ => .eString

/-- Readable name of an element kind (matches `cvalTypeName`). -/
def kindName : ElemKind → String
  | .eInt => "int64_t"
  | .eDouble => "double"
  | .eString => "std::string"

/-- `getValue` (Interpreter.cpp:38-47): an array operand yields its element
at the row index, a scalar operand yields itself for every row — the scalar
broadcasts without being materialized.  A row index beyond an array
operand's length is an out-of-bounds buffer read (undefined behaviour) in
the source; the model defaults, and the theorems stay in range. -/
def fieldGet : Field → Nat → CVal
  | .intS v, _ => .i v
  | .doubleS v, _ => .d v
  | .arrInt a, idx => .i (a.getD idx 0)
  | .arrDouble a, idx => .d (a.getD idx 0)
  | .arrString a, idx => .s (a.getD idx "")

/-- The elementwise loop of the free `exec` function (Interpreter.cpp:104-120):
for each row index below `count`, apply the operator to the two per-row
values; the first throwing element aborts the loop.  With `count = 0` the
loop body never runs. -/
def execRaw (op : BinOp) (lhs rhs : Field) (count : Nat) : Except String (List CVal) :=
  (List.range count).mapM (fun idx => binOpExec op (fieldGet lhs idx) (fieldGet rhs idx))

/-- Result packing of `exec` for value operators: the result element type is
computed statically (`decltype(Operation::exec(...))`), which for `Plus` is
the left operand's element type (also in the mismatch overload, whose
declared result is `exec(lhs, lhs)`).  The defaults are unreachable: when
the element list is nonempty, all its elements have the left operand's kind. -/
def packLike (lhs : Field) (vals : List CVal) : Field :=
  match elemKind lhs with
  | .eInt => .arrInt (vals.map (fun v => match v with | .i x => x | _ => 0))
  | .eDouble => .arrDouble (vals.map (fun v => match v with | .d x => x | _ => 0))
  | .eString => .arrString (vals.map (fun v => match v with | .s x => x | _ => ""))

/-- `exec` as used for a `ValueOperation` result: elementwise loop plus
packing into a `Field` array operand. -/
def execValue (op : BinOp) (lhs rhs : Field) (count : Nat) : Except String Field :=
  (execRaw op lhs rhs count).map (packLike lhs)

/-- A stored mask byte: the `bool` result of a relational kernel stored into
`ArrayOperand<unsigned char>` (Interpreter.cpp:108), so 1 for true and 0 for
false.  Non-`bool` input is unreachable for the relational operators. -/
def toByte : CVal → Nat
  | .b true => 1
  | _ => 0

/-- `exec` as used for a comparison predicate: elementwise loop producing the
one-byte-per-row mask (nonzero = true). -/
def execMask (op : BinOp) (lhs rhs : Field) (count : Nat) : Except String (List Nat) :=
  (execRaw op lhs rhs count).map (fun l => l.map toByte)

/-- One storage chunk of a column, as the interpreter reads it: the raw
values buffer (`array->data()->buffers.at(1)`), with no null bitmap — the
interpreter wraps only the values. -/
inductive Chunk where
  | ints (vals : List Int)
  | doubles (vals : List Float)
  | strings (vals : List String)

/-- A column bound into the interpreter: its list of storage chunks. -/
structure InterpColumn where
  chunks : List Chunk

instance : Inhabited InterpColumn := ⟨⟨[]⟩⟩

/-- Wrapping a single chunk's buffer as an array operand
(Interpreter.cpp:142-148): no copy — the operand is the chunk's element
sequence. -/
def chunkToField : Chunk → Field
  | .ints v => .arrInt v
  | .doubles v => .arrDouble v
  | .strings v => .arrString v

/-- `Interpreter::fieldFromColumn` (Interpreter.cpp:136-149): fail unless the
column has exactly one chunk, then wrap that chunk's buffer without copying. -/
def fieldFromColumn (col : InterpColumn) : Except String Field :=
  match col.chunks with
  | [c] => .ok (chunkToField c)
  | _ => .error "not implemented: processing of chunked arrays"

/-- The interpreter state (Interpreter.cpp:122-132): the columns selected by
the column mapping, and the bound table's row count (`table.num_rows()`). -/
structure Interpreter where
  columns : List InterpColumn
  numRows : Nat

/-- The value-operator tags of the AST (`ast::ValueOperator`); the
interpreter implements only `Plus` and reports the numeric tag of any other
operator.  AST.h is not among the sampled sources; the tag set and its
declaration order follow the spec's data model (§3). -/
inductive ValueOperator where
  | Plus
  | Minus
  | Times
  | Divide
  | Negate
deriving DecidableEq, Repr

/-- The numeric value of a `ValueOperator` tag (`(int)op.what`), by
declaration order. -/
def valueOperatorIndex : ValueOperator → Nat
  | .Plus => 0
  | .Minus => 1
  | .Times => 2
  | .Divide => 3
  | .Negate => 4

/-- Value nodes of the expression tree (`ast::Value`, per the spec's data
model §3 and the alternatives handled in Interpreter.cpp:162-185):
a column reference, typed literals (int64, double), and a binary value
operation (`MaxOperatorArity == 2`). -/
inductive Value where
  | columnReference (columnRefId : Nat)
  | literalInt (literal : Int)
  | literalDouble (literal : Float)
  | valueOperation (what : ValueOperator) (lhs rhs : Value)

/-- Comparison-predicate operator tags (`ast::PredicateFromValueOperator`). -/
inductive PredicateFromValueOperator where
  | Greater
  | Lesser
  | Equal
deriving DecidableEq, Repr

/-- Predicate nodes (`ast::Predicate`): a leaf comparison of two value
operands, or a boolean-combinator node (`ast::PredicateOperation`) over
sub-predicates, declared but not evaluable.  The combinator payload is
modeled from the spec (§3: "boolean combinators over sub-predicates",
binary arity); evaluation never inspects it. -/
inductive Predicate where
  | fromValueOperation (what : PredicateFromValueOperator) (lhs rhs : Value)
  | predicateOperation (lhs rhs : Predicate)

/-- `Interpreter::evaluateValue` (Interpreter.cpp:162-185).  A column
reference wraps the referenced column (an out-of-range reference id is an
out-of-bounds `std::vector` access — undefined behaviour — modeled as an
internal error; the theorems keep ids in range).  A `ValueOperation`
evaluates both operands first (`evaluateOperands`), then dispatches on the
operator: only `Plus` is implemented. -/
def evaluateValue (ip : Interpreter) : Value → Except String Field
  | .columnReference refId =>
    match ip.columns.get? refId with
    | some col => fieldFromColumn col
    | none => .error "internal: column reference out of range"
  | .literalInt v => .ok (.intS v)
  | .literalDouble v => .ok (.doubleS v)
  | .valueOperation what lhs rhs => do
    let l ← evaluateValue ip lhs
    let r ← evaluateValue ip rhs
    match what with
    | .Plus => execValue .plus l r ip.numRows
    | other => .error ("not implemented: value operator " ++ toString (valueOperatorIndex other))

/-- `Interpreter::evaluate` (Interpreter.cpp:187-213): a leaf comparison
evaluates its two value operands and applies the relational kernel,
producing the byte mask; a `PredicateOperation` node fails without
evaluating its children. -/
def evaluate (ip : Interpreter) : Predicate → Except String (List Nat)
  | .fromValueOperation what lhs rhs => do
    let l ← evaluateValue ip lhs
    let r ← evaluateValue ip rhs
    match what with
    | .Greater => execMask .greaterThan l r ip.numRows
    | .Lesser => execMask .lessThan l r ip.numRows
    | .Equal => execMask .equalTo l r ip.numRows
  | .predicateOperation _ _ => .error "not implemented: PredicateOperation"

/-- The column-reference ids occurring in a value expression. -/
def Value.refs : Value → List Nat
  | .columnReference refId => [refId]
  | .literalInt _ => []
  | .literalDouble _ => []
  | .valueOperation _ lhs rhs => lhs.refs ++ rhs.refs

end Interp

namespace Xlsx

/-- A spreadsheet cell's content together with the xlnt conversions the
importer applies (`field.to_string()`, `field.value<int64_t>()`,
`field.value<double>()`). -/
structure XCell where
  asString : String
  asInt : Int
  asDouble : Float

/-- The active sheet as `readXlsxFile` observes it: the used-range bounds
(`highest_row()`, `highest_column().index`), whether a logical cell
reference exists inside the sheet (`has_cell`), and the cell's content —
`none` when the cell exists but `has_value()` is false.  Coordinates are
0-based here (the source adds 1 to form `xlnt` references). -/
structure Sheet where
  highestRow : Nat
  highestColumn : Nat
  hasCell : Nat → Nat → Bool
  cellContent : Nat → Nat → Option XCell

/-- A target column type (`ColumnType`): logical element type plus
nullability.  The builder-selection switch (XLSX.cpp:128-138) supports
exactly int64, double and string and throws on anything else, so the model
carries just these three. -/
structure ColumnType where
  type : Interp.ElemKind
  nullable : Bool
deriving DecidableEq, Repr

instance : Inhabited ColumnType := ⟨⟨.eString, false⟩⟩

/-- Modelled from the spec: `defaultValue<type>()` (Core/ArrowUtilities) is
not among the sampled sources; the value appended into a non-nullable
column for a missing cell is the type's natural default (zero / empty
string), consistent with §6's "defaulting absent type information to
non-nullable text" boundary description.  The corrected claim depends only
on this being a present (non-null) value. -/
def defaultValue : Interp.ElemKind → Interp.CVal
  | .eInt => .i 0
  | .eDouble => .d 0.0
  | .eString => .s ""

/-- The typed append of `ColumnBuilder<type>::addFromCell`'s has-value branch
(XLSX.cpp:39-49): convert the cell per the column's element type. -/
def convertCell (k : Interp.ElemKind) (c : XCell) : Interp.CVal :=
  match k with
  | .eInt => .i c.asInt
  | .eDouble => .d c.asDouble
  | .eString => .s c.asString

/-- `ColumnBuilder::addMissing` (XLSX.cpp:53-59): append a null for a
nullable column, the type's default value for a non-nullable one. -/
def addMissing (k : Interp.ElemKind) (nullable : Bool) : Option Interp.CVal :=
  if nullable then none else some (defaultValue k)

/-- `ColumnBuilder::addFromCell` (XLSX.cpp:37-52): append the converted
value when the cell has content, otherwise fall back to `addMissing`. -/
def addFromCell (k : Interp.ElemKind) (nullable : Bool) (c : Option XCell) :
    Option Interp.CVal :=
  match c with
  | some cell => some (convertCell k cell)
  | none => addMissing k nullable

/-- One imported column: its target type and its appended cells in row
order (`none` = appended null). -/
structure ImportedColumn where
  type : ColumnType
  cells : List (Option Interp.CVal)

instance : Inhabited ImportedColumn := ⟨⟨default, []⟩⟩

/-- The body of the fill loop (XLSX.cpp:146-155) for one logical cell: if
the sheet has the cell reference, run `addFromCell`, else `addMissing`. -/
def buildCell (sheet : Sheet) (ct : ColumnType) (column row : Nat) :
    Option Interp.CVal :=
  if sheet.hasCell column row then
    addFromCell ct.type ct.nullable (sheet.cellContent column row)
  else
    addMissing ct.type ct.nullable

/-- The builder type list of `readXlsxFile`: the caller's type list,
extended to the sheet's column count with non-nullable text when it is
shorter (XLSX.cpp:110-115), followed by the string-builder top-up loop
(XLSX.cpp:143-144) — dead once the type list has been extended, modeled by
the same (empty) append. -/
def importTypes (sheet : Sheet) (columnTypes : List ColumnType) : List ColumnType :=
  let columnCount := sheet.highestColumn
  let types :=
    if columnTypes.length < columnCount then
      columnTypes ++ List.replicate (columnCount - columnTypes.length)
        (⟨.eString, false⟩ : ColumnType)
    else columnTypes
  types ++ List.replicate (columnCount - types.length) (⟨.eString, false⟩ : ColumnType)

/-- The first data row: 1 when the first sheet row is consumed as headers
(`row = useFirstRowAsHeaders` in the fill loop, XLSX.cpp:148). -/
def importStartRow (useFirstRowAsHeaders : Bool) : Nat :=
  if useFirstRowAsHeaders then 1 else 0

/-- The cells appended to the builder of column `j` (fill loop,
XLSX.cpp:146-155): one `buildCell` per data row when `j` is a sheet column;
builders beyond the sheet's column count are never filled. -/
def importCells (sheet : Sheet) (ct : ColumnType) (j : Nat)
    (useFirstRowAsHeaders : Bool) : List (Option Interp.CVal) :=
  let startRow := importStartRow useFirstRowAsHeaders
  if j < sheet.highestColumn then
    (List.range' startRow (sheet.highestRow - startRow)).map
      (fun row => buildCell sheet ct j row)
  else []

/-- `readXlsxFile` (XLSX.cpp:97-170), its column-producing core: one
finished builder per entry of the extended type list.  Column naming and
the final `buildTable` assembly carry the cells through unchanged and are
outside the claims. -/
def readXlsx (sheet : Sheet) (useFirstRowAsHeaders : Bool)
    (columnTypes : List ColumnType) : List ImportedColumn :=
  (importTypes sheet columnTypes).enum.map (fun p =>
    { type := p.2
      cells := importCells sheet p.2 p.1 useFirstRowAsHeaders })

end Xlsx

end Dataframes

/-! ## Lemmas: sort engine -/

namespace Dataframes.Sorting

open List

lemma locate_eq (chunks : List (List (Option Int))) (i : Nat) :
    locate chunks i = chunks.flatten.getD i none := by
  induction chunks generalizing i with
  | nil => simp [locate]
  | cons c rest ih =>
    simp only [locate, List.flatten_cons]
    by_cases h : i < c.length
    · rw [if_pos h, List.getD_append _ _ _ _ h]
    · rw [if_neg h, ih, List.getD_append_right _ _ _ _ (Nat.le_of_not_lt h)]

lemma compareValues_iff_rank (order : SortOrder) (nulls : NullPosition) (v w : Option Int) :
    compareValues order nulls v w = true ↔
      ((keyRank order nulls v).1 < (keyRank order nulls w).1 ∨
       ((keyRank order nulls v).1 = (keyRank order nulls w).1 ∧
        (keyRank order nulls v).2 < (keyRank order nulls w).2)) := by
  cases v <;> cases w <;> cases order <;> cases nulls <;>
    simp [compareValues, compareRawValues, keyRank]

lemma keyComp_iff_rank (k : SortBy) (i j : Nat) :
    keyComp k i j = true ↔
      ((rowRank k i).1 < (rowRank k j).1 ∨
       ((rowRank k i).1 = (rowRank k j).1 ∧ (rowRank k i).2 < (rowRank k j).2)) :=
  compareValues_iff_rank k.order k.nulls _ _

lemma keyLe_iff (k : SortBy) (i j : Nat) :
    keyLe k i j = true ↔
      ((rowRank k i).1 < (rowRank k j).1 ∨
       ((rowRank k i).1 = (rowRank k j).1 ∧ (rowRank k i).2 ≤ (rowRank k j).2)) := by
  have h := keyComp_iff_rank k j i
  simp only [keyLe, Bool.not_eq_true']
  rw [← Bool.not_eq_true, h]
  omega

lemma keyLe_total (k : SortBy) (i j : Nat) : keyLe k i j || keyLe k j i := by
  rw [Bool.or_eq_true, keyLe_iff, keyLe_iff]
  omega

lemma keyLe_trans (k : SortBy) (a b c : Nat) :
    keyLe k a b → keyLe k b c → keyLe k a c := by
  rw [keyLe_iff, keyLe_iff, keyLe_iff]
  omega

lemma sortPermutationInner_eq (k : SortBy) (ind : List Nat) :
    sortPermutationInner k ind = ind.mergeSort (fun i j => keyLe k i j) := rfl

lemma applyKeys_cons (k : SortBy) (ks : List SortBy) (ind : List Nat) :
    applyKeys (k :: ks) ind = sortPermutationInner k (applyKeys ks ind) := rfl

lemma applyKeys_perm (ks : List SortBy) (ind : List Nat) : applyKeys ks ind ~ ind := by
  induction ks with
  | nil => exact List.Perm.refl ind
  | cons k ks ih => exact (List.mergeSort_perm _ _).trans ih

lemma sortPermutation_eq_applyKeys (k : SortBy) (ks : List SortBy) :
    sortPermutation (k :: ks) = .ok (applyKeys (k :: ks) (List.range k.column.length)) := by
  simp only [sortPermutation, applyKeys, List.foldl_reverse]

lemma pair_sublist_ne {i j : Nat} {l : List Nat} (hnd : l.Nodup) (h : [i, j] <+ l) :
    i ≠ j := by
  have hp := h.nodup hnd
  simp only [List.nodup_cons, List.mem_singleton, List.nodup_nil, and_true] at hp
  exact hp.1

lemma sublist_pair_or {i j : Nat} {l : List Nat} (hi : i ∈ l) (hj : j ∈ l)
    (hne : i ≠ j) : [i, j] <+ l ∨ [j, i] <+ l := by
  induction l with
  | nil => simp at hi
  | cons a t ih =>
    rcases List.mem_cons.mp hi with rfl | hit
    · have hjt : j ∈ t := by
        rcases List.mem_cons.mp hj with h | h
        · exact absurd h.symm hne
        · exact h
      exact Or.inl ((List.singleton_sublist.mpr hjt).cons₂ i)
    · rcases List.mem_cons.mp hj with rfl | hjt
      · exact Or.inr ((List.singleton_sublist.mpr hit).cons₂ j)
      · rcases ih hit hjt with h | h
        · exact Or.inl (h.cons a)
        · exact Or.inr (h.cons a)

lemma not_pair_sublist_both {i j : Nat} {l : List Nat} (hnd : l.Nodup)
    (h1 : [i, j] <+ l) (h2 : [j, i] <+ l) : False := by
  induction l with
  | nil => cases h1
  | cons a t ih =>
    have hmem := List.nodup_cons.mp hnd
    cases h1 with
    | cons _ h1t =>
      cases h2 with
      | cons _ h2t => exact ih hmem.2 h1t h2t
      | cons₂ _ h2t =>
        exact hmem.1 (h1t.subset (by simp))
    | cons₂ _ h1t =>
      cases h2 with
      | cons _ h2t =>
        exact hmem.1 (h2t.subset (by simp))
      | cons₂ _ h2t =>
        exact hmem.1 (h2t.subset (by simp))

lemma applyKeys_stable (ks : List SortBy) (ind : List Nat) (i j : Nat)
    (hsub : [i, j] <+ ind) (heq : ∀ k ∈ ks, equivKey k i j = true) :
    [i, j] <+ applyKeys ks ind := by
  induction ks with
  | nil => exact hsub
  | cons k ks ih =>
    have hk := heq k (List.mem_cons_self k ks)
    have hle : keyLe k i j = true := by
      simp only [equivKey, Bool.and_eq_true] at hk
      simpa only [keyLe] using hk.2
    rw [applyKeys_cons, sortPermutationInner_eq]
    exact List.pair_sublist_mergeSort (keyLe_trans k) (keyLe_total k) hle
      (ih (fun key hkey => heq key (List.mem_cons_of_mem k hkey)))

lemma applyKeys_sorted (ks : List SortBy) (ind : List Nat) (hnd : ind.Nodup) :
    (applyKeys ks ind).Pairwise (fun i j => lexComp ks j i = false) := by
  induction ks with
  | nil => exact List.pairwise_iff_forall_sublist.mpr (fun _ => rfl)
  | cons k ks ih =>
    have hndin : (applyKeys ks ind).Nodup := ((applyKeys_perm ks ind).nodup_iff).mpr hnd
    have hndout : (applyKeys (k :: ks) ind).Nodup :=
      ((applyKeys_perm (k :: ks) ind).nodup_iff).mpr hnd
    have hsorted : (applyKeys (k :: ks) ind).Pairwise (fun i j => keyLe k i j) := by
      rw [applyKeys_cons, sortPermutationInner_eq]
      exact List.sorted_mergeSort (keyLe_trans k) (keyLe_total k) _
    refine List.pairwise_iff_forall_sublist.mpr ?_
    intro i j hsub
    have hle : keyLe k i j = true := List.pairwise_iff_forall_sublist.mp hsorted hsub
    have hne : i ≠ j := pair_sublist_ne hndout hsub
    have h1 : keyComp k j i = false := by
      simpa only [keyLe, Bool.not_eq_true'] using hle
    rcases Bool.eq_false_or_eq_true (keyComp k i j) with h2 | h2
    · simp [lexComp, h1, h2]
    · -- rows i and j compare equal under key k: stability decides by earlier keys
      have hi : i ∈ applyKeys ks ind := by
        have : i ∈ applyKeys (k :: ks) ind := hsub.subset (by simp)
        rw [applyKeys_cons, sortPermutationInner_eq] at this
        exact List.mem_mergeSort.mp this
      have hj : j ∈ applyKeys ks ind := by
        have : j ∈ applyKeys (k :: ks) ind := hsub.subset (by simp)
        rw [applyKeys_cons, sortPermutationInner_eq] at this
        exact List.mem_mergeSort.mp this
      rcases sublist_pair_or hi hj hne with hin | hin
      · have hlex := List.pairwise_iff_forall_sublist.mp ih hin
        simp [lexComp, h1, h2, hlex]
      · have hleji : keyLe k j i = true := by
          simp only [keyLe, Bool.not_eq_true']
          exact h2
        have hout : [j, i] <+ applyKeys (k :: ks) ind := by
          rw [applyKeys_cons, sortPermutationInner_eq]
          exact List.pair_sublist_mergeSort (keyLe_trans k) (keyLe_total k) hleji hin
        exact (not_pair_sublist_both hndout hsub hout).elim

lemma pair_sublist_range {i j n : Nat} (hij : i < j) (hj : j < n) :
    [i, j] <+ List.range n := by
  induction n with
  | zero => omega
  | succ m ih =>
    rw [List.range_succ]
    rcases Nat.lt_or_ge j m with h | h
    · exact (ih h).trans (List.sublist_append_left _ _)
    · have hjm : j = m := by omega
      subst hjm
      have hi : [i] <+ List.range j := List.singleton_sublist.mpr (List.mem_range.mpr hij)
      exact hi.append (List.Sublist.refl [j])

lemma isPermuteId_getD {P : List Nat} (h : isPermuteId P = true) {i : Nat}
    (hi : i < P.length) : P.getD i 0 = i := by
  simp only [isPermuteId, List.all_eq_true, List.mem_range, beq_iff_eq] at h
  exact h i hi

lemma permuteInnerColumn_cellAt (c : Column) (P : List Nat) {i : Nat}
    (hi : i < P.length) :
    (permuteInnerColumn c P).cellAt i = c.cellAt (P.getD i 0) := by
  simp only [permuteInnerColumn, Column.cellAt, permuteInnerToArray,
    List.flatten, List.append_nil]
  rw [List.getD_eq_getElem?_getD, List.getElem?_map, List.getElem?_eq_getElem hi,
    List.getD_eq_getElem _ _ hi]
  simp [locate_eq, Column.cellAt]

/-- C1: for every non-empty sort-key list, `sortPermutation` succeeds with a
permutation of the identity range sized to the first key's column length;
the permutation lists the rows in the declared lexicographic order (first
key most significant, via the reverse-iteration of per-key stable sorts);
and it is stable: whenever every key compares rows `i` and `j` equal and
`i < j` in the input, `i` precedes `j` in the output permutation's induced
order. -/
theorem c1_sortPermutation_lex_stable (k : SortBy) (ks : List SortBy)
    (p : List Nat) (hp : sortPermutation (k :: ks) = .ok p) :
    p ~ List.range k.column.length ∧
    p.Pairwise (fun i j => lexComp (k :: ks) j i = false) ∧
    (∀ i j : Nat, i < j → j < k.column.length →
      (∀ key ∈ k :: ks, keyComp key i j = false ∧ keyComp key j i = false) →
      [i, j] <+ p) := by
  rw [sortPermutation_eq_applyKeys] at hp
  have hpe : applyKeys (k :: ks) (List.range k.column.length) = p := by
    exact Except.ok.inj hp
  subst hpe
  refine ⟨applyKeys_perm _ _, applyKeys_sorted _ _ (List.nodup_range _), ?_⟩
  intro i j hij hjn heq
  refine applyKeys_stable _ _ _ _ (pair_sublist_range hij hjn) ?_
  intro key hkey
  have h := heq key hkey
  simp [equivKey, h.1, h.2]

/-- Witness for C1: the spec §8 multi-key example (rows `(1,2) (1,1) (0,5)`
sorted by both keys ascending gives row order `[2, 1, 0]`), and the
stability conclusion on a single-key column with duplicate values. -/
theorem c1_witness :
    ([2, 1, 0] : List Nat) ~ List.range 3 ∧ [0, 2] <+ ([1, 0, 2] : List Nat) := by
  constructor
  · have hp : sortPermutation
        [⟨[some 1, some 1, some 0], .Ascending, .Before⟩,
         ⟨[some 2, some 1, some 5], .Ascending, .Before⟩] = .ok [2, 1, 0] := by
      simp [sortPermutation, sortPermutationInner, List.mergeSort, List.splitInTwo,
        List.merge, keyComp, compareValues, compareRawValues, List.range,
        List.range.loop]
    exact (c1_sortPermutation_lex_stable _ _ _ hp).1
  · have hp : sortPermutation
        [⟨[some 1, some 0, some 1], .Ascending, .Before⟩] = .ok [1, 0, 2] := by
      simp [sortPermutation, sortPermutationInner, List.mergeSort, List.splitInTwo,
        List.merge, keyComp, compareValues, compareRawValues, List.range,
        List.range.loop]
    refine (c1_sortPermutation_lex_stable _ _ _ hp).2.2 0 2 (by decide) (by decide) ?_
    intro key hkey
    simp only [List.mem_singleton] at hkey
    subst hkey
    constructor <;> decide

/-- C7: `sortPermutation` on an empty key list fails with the configuration
error, and on any key list with at least one entry it succeeds (no error is
raised). -/
theorem c7_sortPermutation_empty_keys :
    sortPermutation [] = .error "no column to sort by" ∧
    ∀ (k : SortBy) (ks : List SortBy), ∃ p, sortPermutation (k :: ks) = .ok p :=
  ⟨rfl, fun k ks => ⟨_, sortPermutation_eq_applyKeys k ks⟩⟩

/-- C2: applying a bijective permutation to a table gives, for every column,
row `i` of the result equal to row `P[i]` of the input; when `P` is the
identity permutation the fast path returns the input table itself (sharing
its storage), and the copying path would produce the same cell values. -/
theorem c2_permute_rows (t : List Column) (P : List Nat) (n : Nat)
    (hlen : P.length = n) (hmem : ∀ v ∈ P, v < n) (hnd : P.Nodup) :
    (∀ j i : Nat, j < t.length → i < n →
      ((permuteTable t P).getD j default).cellAt i
        = (t.getD j default).cellAt (P.getD i 0)) ∧
    (isPermuteId P = true → permuteTable t P = t) ∧
    (isPermuteId P = true → ∀ j i : Nat, j < t.length → i < n →
      ((permuteInnerTable t P).getD j default).cellAt i
        = (t.getD j default).cellAt i) := by
  subst hlen
  have hinner : ∀ j i : Nat, j < t.length → i < P.length →
      ((permuteInnerTable t P).getD j default).cellAt i
        = (t.getD j default).cellAt (P.getD i 0) := by
    intro j i hj hi
    have hmap : (permuteInnerTable t P).getD j default
        = permuteInnerColumn (t.getD j default) P := by
      simp only [permuteInnerTable, Table]
      rw [List.getD_eq_getElem?_getD, List.getElem?_map, List.getElem?_eq_getElem hj]
      simp [List.getD_eq_getElem?_getD, List.getElem?_eq_getElem hj]
    rw [hmap, permuteInnerColumn_cellAt _ _ hi]
  refine ⟨?_, ?_, ?_⟩
  · intro j i hj hi
    by_cases hid : isPermuteId P
    · simp only [permuteTable, Table, hid, if_true]
      rw [isPermuteId_getD hid hi]
    · simp only [permuteTable, Table, hid, if_false]
      exact hinner j i hj hi
  · intro hid
    simp [permuteTable, hid]
  · intro hid j i hj hi
    rw [hinner j i hj hi, isPermuteId_getD hid hi]

lemma singleKey_sorted {k : SortBy} {p : List Nat}
    (hp : sortPermutation [k] = .ok p) :
    p.Pairwise (fun i j => keyLe k i j = true) ∧ p ~ List.range k.column.length
      ∧ p.Nodup := by
  rw [sortPermutation_eq_applyKeys] at hp
  have hpe : applyKeys [k] (List.range k.column.length) = p := Except.ok.inj hp
  subst hpe
  refine ⟨?_, applyKeys_perm _ _, ((applyKeys_perm _ _).nodup_iff).mpr (List.nodup_range _)⟩
  rw [applyKeys_cons, sortPermutationInner_eq]
  exact List.sorted_mergeSort (keyLe_trans k) (keyLe_total k) _

lemma equivKey_null {col : List (Option Int)} {order : SortOrder}
    {nulls : NullPosition} {i j : Nat} (hi : isNullCell col i = true)
    (hj : isNullCell col j = true) : equivKey ⟨col, order, nulls⟩ i j = true := by
  simp only [isNullCell, Option.isNone_iff_eq_none] at hi hj
  simp only [equivKey, keyComp]
  rw [hi, hj]
  rfl

lemma pairwise_prefix_split {Q : Nat → Bool} {l : List Nat}
    (h : l.Pairwise (fun a b => Q b = true → Q a = true)) :
    ∃ A B, l = A ++ B ∧ (∀ a ∈ A, Q a = true) ∧ (∀ b ∈ B, Q b = false) := by
  induction l with
  | nil => exact ⟨[], [], rfl, by simp, by simp⟩
  | cons a t ih =>
    have hp := List.pairwise_cons.mp h
    rcases Bool.eq_false_or_eq_true (Q a) with hQ | hQ
    · obtain ⟨A, B, hAB, hA, hB⟩ := ih hp.2
      refine ⟨a :: A, B, by rw [hAB]; rfl, ?_, hB⟩
      intro x hx
      rcases List.mem_cons.mp hx with rfl | hxA
      · exact hQ
      · exact hA x hxA
    · refine ⟨[], a :: t, rfl, by simp, ?_⟩
      intro b hb
      rcases List.mem_cons.mp hb with rfl | hbt
      · exact hQ
      · rcases Bool.eq_false_or_eq_true (Q b) with h' | h'
        · exact absurd (hp.1 b hbt h') (by simp [hQ])
        · exact h'

lemma split_filter_eq {Q : Nat → Bool} {A B : List Nat}
    (hA : ∀ a ∈ A, Q a = true) (hB : ∀ b ∈ B, Q b = false) :
    (A ++ B).filter Q = A ∧ (A ++ B).filter (fun x => ! Q x) = B := by
  constructor
  · rw [List.filter_append, List.filter_eq_self.mpr hA,
      List.filter_eq_nil_iff.mpr (by intro b hb; simp [hB b hb]), List.append_nil]
  · rw [List.filter_append, List.filter_eq_nil_iff.mpr (by intro a ha; simp [hA a ha]),
      List.filter_eq_self.mpr (by intro b hb; simp [hB b hb]), List.nil_append]

lemma sorted_null_filter {col : List (Option Int)} {order : SortOrder}
    {nulls : NullPosition} {p : List Nat}
    (hp : sortPermutation [⟨col, order, nulls⟩] = .ok p) :
    p.filter (fun i => isNullCell col i) = nullIdx col := by
  obtain ⟨hpair, hperm, hnd⟩ := singleKey_sorted hp
  have hn : (List.range col.length).Nodup := List.nodup_range _
  have hpf : p.filter (fun i => isNullCell col i)
      ~ (List.range col.length).filter (fun i => isNullCell col i) :=
    hperm.filter _
  have hs1 : (p.filter (fun i => isNullCell col i)).Pairwise (· < ·) := by
    refine List.pairwise_iff_forall_sublist.mpr ?_
    intro a b hab
    have habp : [a, b] <+ p := hab.trans (List.filter_sublist _)
    have hne : a ≠ b := pair_sublist_ne hnd habp
    have ha : isNullCell col a = true :=
      (List.mem_filter.mp (hab.subset (by simp))).2
    have hb : isNullCell col b = true :=
      (List.mem_filter.mp (hab.subset (by simp : b ∈ [a, b]))).2
    rcases Nat.lt_or_ge a b with h | h
    · exact h
    · have hba : b < a := by omega
      have haR : a ∈ List.range col.length := hperm.subset (habp.subset (by simp))
      have hinr : [b, a] <+ List.range col.length :=
        pair_sublist_range hba (List.mem_range.mp haR)
      have hstab : [b, a] <+ p := by
        rw [sortPermutation_eq_applyKeys] at hp
        have hpe : applyKeys [⟨col, order, nulls⟩] (List.range col.length) = p :=
          Except.ok.inj hp
        rw [← hpe]
        refine applyKeys_stable _ _ _ _ hinr ?_
        intro key hkey
        simp only [List.mem_singleton] at hkey
        subst hkey
        exact equivKey_null hb ha
      exact (not_pair_sublist_both hnd habp hstab).elim
  have hs2 : ((List.range col.length).filter (fun i => isNullCell col i)).Pairwise (· < ·) :=
    List.Pairwise.sublist (List.filter_sublist _) (List.pairwise_lt_range _)
  have : p.filter (fun i => isNullCell col i)
      = (List.range col.length).filter (fun i => isNullCell col i) :=
    List.eq_of_perm_of_sorted hpf (hs1.imp Nat.le_of_lt) (hs2.imp Nat.le_of_lt)
  simpa [nullIdx] using this

lemma keyLe_nonnull_iff {col : List (Option Int)} {order : SortOrder}
    {nulls : NullPosition} {i j : Nat} (hi : isNullCell col i = false)
    (hj : isNullCell col j = false) :
    keyLe ⟨col, order, nulls⟩ i j = true ↔
      (match order with
       | .Ascending => cellVal col i ≤ cellVal col j
       | .Descending => cellVal col j ≤ cellVal col i) := by
  simp only [isNullCell] at hi hj
  simp only [keyLe, keyComp, cellVal]
  rcases hvi : col.getD i none with - | vi
  · rw [hvi] at hi
    simp at hi
  · rcases hvj : col.getD j none with - | vj
    · rw [hvj] at hj
      simp at hj
    · cases order <;> simp [compareValues, compareRawValues] <;> omega

lemma notNullRun_sorted {col : List (Option Int)} {order : SortOrder}
    {nulls : NullPosition} {p : List Nat}
    (hp : sortPermutation [⟨col, order, nulls⟩] = .ok p) :
    ((notNullRun col p).map (cellVal col)).Pairwise
      (match order with
       | .Ascending => (· ≤ ·)
       | .Descending => (fun a b => b ≤ a)) := by
  obtain ⟨hpair, hperm, hnd⟩ := singleKey_sorted hp
  rw [List.pairwise_map]
  refine List.pairwise_iff_forall_sublist.mpr ?_
  intro a b hab
  simp only [notNullRun] at hab
  have ha : isNullCell col a = false := by
    have := (List.mem_filter.mp (hab.subset (show a ∈ [a, b] by simp))).2
    simpa using this
  have hb : isNullCell col b = false := by
    have := (List.mem_filter.mp (hab.subset (by simp : b ∈ [a, b]))).2
    simpa using this
  have hle : keyLe ⟨col, order, nulls⟩ a b = true :=
    List.pairwise_iff_forall_sublist.mp
      (List.Pairwise.sublist (List.filter_sublist _) hpair) hab
  have h := (keyLe_nonnull_iff ha hb).mp hle
  cases order <;> exact h

lemma before_decomp {col : List (Option Int)} {order : SortOrder} {p : List Nat}
    (hp : sortPermutation [⟨col, order, .Before⟩] = .ok p) :
    p = nullIdx col ++ notNullRun col p := by
  obtain ⟨hpair, hperm, hnd⟩ := singleKey_sorted hp
  have hsplit : p.Pairwise (fun a b => isNullCell col b = true → isNullCell col a = true) := by
    refine hpair.imp ?_
    intro a b hle hb
    rcases Bool.eq_false_or_eq_true (isNullCell col a) with ha | ha
    · exact ha
    · -- a non-null before b null contradicts sortedness with placement Before
      exfalso
      simp only [isNullCell] at ha hb
      rw [Option.isNone_iff_eq_none] at hb
      rcases hva : col.getD a none with - | va
      · rw [hva] at ha
        simp at ha
      · simp only [keyLe, keyComp] at hle
        rw [hb, hva] at hle
        simp [compareValues] at hle
  obtain ⟨A, B, hAB, hA, hB⟩ := pairwise_prefix_split hsplit
  obtain ⟨hfA, hfB⟩ := split_filter_eq hA hB
  have h1 : p.filter (fun i => isNullCell col i) = A := by rw [hAB]; exact hfA
  have h2 : p.filter (fun i => ! isNullCell col i) = B := by rw [hAB]; exact hfB
  have hAn : A = nullIdx col := by rw [← h1]; exact sorted_null_filter hp
  have hBn : notNullRun col p = B := h2
  rw [hBn, ← hAn]
  exact hAB

lemma after_decomp {col : List (Option Int)} {order : SortOrder} {p : List Nat}
    (hp : sortPermutation [⟨col, order, .After⟩] = .ok p) :
    p = notNullRun col p ++ nullIdx col := by
  obtain ⟨hpair, hperm, hnd⟩ := singleKey_sorted hp
  have hsplit : p.Pairwise
      (fun a b => (! isNullCell col b) = true → (! isNullCell col a) = true) := by
    refine hpair.imp ?_
    intro a b hle hb
    rw [Bool.not_eq_true'] at hb
    rw [Bool.not_eq_true']
    rcases Bool.eq_false_or_eq_true (isNullCell col a) with ha | ha
    · -- a null before b non-null contradicts sortedness with placement After
      exfalso
      simp only [isNullCell] at ha hb
      rw [Option.isNone_iff_eq_none] at ha
      rcases hvb : col.getD b none with - | vb
      · rw [hvb] at hb
        simp at hb
      · simp only [keyLe, keyComp] at hle
        rw [ha, hvb] at hle
        simp [compareValues] at hle
    · exact ha
  obtain ⟨A, B, hAB, hA, hB⟩ := pairwise_prefix_split hsplit
  have hfA : (A ++ B).filter (fun x => ! isNullCell col x) = A := by
    rw [List.filter_append, List.filter_eq_self.mpr hA,
      List.filter_eq_nil_iff.mpr (by intro b hb; simp [hB b hb]), List.append_nil]
  have hfB : (A ++ B).filter (fun x => isNullCell col x) = B := by
    rw [List.filter_append,
      List.filter_eq_nil_iff.mpr (by intro a ha; simpa using hA a ha),
      List.filter_eq_self.mpr (by intro b hb; simpa using hB b hb), List.nil_append]
  have h1 : p.filter (fun i => isNullCell col i) = B := by rw [hAB]; exact hfB
  have h2 : p.filter (fun i => ! isNullCell col i) = A := by rw [hAB]; exact hfA
  have hBn : B = nullIdx col := by rw [← h1]; exact sorted_null_filter hp
  have hAn : notNullRun col p = A := h2
  rw [hAn, ← hBn]
  exact hAB

/-- C3: the null-comparison policy of a single sort key.  Null compares
equal to null; a non-null value is ordered against null solely by the
null-placement flag, for either sort order.  Consequently, sorting one key
with placement `Before` puts the block of null rows (in their input order)
first and with `After` puts the same block last, under both orders; and
switching `Ascending` to `Descending` reverses exactly the non-null run's
value sequence while the null block stays the same rows. -/
theorem c3_null_placement (col : List (Option Int)) :
    (∀ order nulls, compareValues order nulls none none = false) ∧
    (∀ order v, compareValues order .Before (some v) none = false ∧
      compareValues order .Before none (some v) = true ∧
      compareValues order .After (some v) none = true ∧
      compareValues order .After none (some v) = false) ∧
    (∀ order p, sortPermutation [⟨col, order, .Before⟩] = .ok p →
      p = nullIdx col ++ notNullRun col p ∧
      ∀ i ∈ notNullRun col p, isNullCell col i = false) ∧
    (∀ order p, sortPermutation [⟨col, order, .After⟩] = .ok p →
      p = notNullRun col p ++ nullIdx col ∧
      ∀ i ∈ notNullRun col p, isNullCell col i = false) ∧
    (∀ nulls p₁ p₂, sortPermutation [⟨col, .Ascending, nulls⟩] = .ok p₁ →
      sortPermutation [⟨col, .Descending, nulls⟩] = .ok p₂ →
      (notNullRun col p₂).map (cellVal col)
        = ((notNullRun col p₁).map (cellVal col)).reverse ∧
      p₂.filter (fun i => isNullCell col i) = p₁.filter (fun i => isNullCell col i)) := by
  refine ⟨?_, ?_, ?_, ?_, ?_⟩
  · intro order nulls
    rfl
  · intro order v
    cases order <;> exact ⟨rfl, rfl, rfl, rfl⟩
  · intro order p hp
    refine ⟨before_decomp hp, ?_⟩
    intro i hi
    have := (List.mem_filter.mp hi).2
    simpa using this
  · intro order p hp
    refine ⟨after_decomp hp, ?_⟩
    intro i hi
    have := (List.mem_filter.mp hi).2
    simpa using this
  · intro nulls p₁ p₂ hp₁ hp₂
    have hperm₁ := (singleKey_sorted hp₁).2.1
    have hperm₂ := (singleKey_sorted hp₂).2.1
    have hrunperm : notNullRun col p₂ ~ notNullRun col p₁ :=
      (hperm₂.filter _).trans (hperm₁.filter _).symm
    have hvalperm : (notNullRun col p₂).map (cellVal col)
        ~ ((notNullRun col p₁).map (cellVal col)).reverse :=
      (hrunperm.map _).trans (List.reverse_perm _).symm
    have hs₁ := notNullRun_sorted hp₁
    have hs₂ := notNullRun_sorted hp₂
    have hs₁r : (((notNullRun col p₁).map (cellVal col)).reverse).Pairwise
        (fun a b : Int => b ≤ a) := by
      rw [List.pairwise_reverse]
      exact hs₁
    haveI : IsAntisymm Int (fun a b : Int => b ≤ a) :=
      ⟨fun a b h1 h2 => le_antisymm h2 h1⟩
    refine ⟨List.eq_of_perm_of_sorted hvalperm hs₂ hs₁r, ?_⟩
    rw [sorted_null_filter hp₁, sorted_null_filter hp₂]

/-- Witness for C3 on the column `[some 2, none, some 1]`: placement Before
with both orders puts the null row (index 1) first; the descending non-null
value run is the reverse of the ascending one. -/
theorem c3_witness :
    ([1, 2, 0] : List Nat) = nullIdx [some 2, none, some 1]
        ++ notNullRun [some 2, none, some 1] [1, 2, 0] ∧
    ([2] : List Int) ++ [1] = (([1] : List Int) ++ [2]).reverse := by
  constructor
  · have hp : sortPermutation [⟨[some 2, none, some 1], .Ascending, .Before⟩]
        = .ok [1, 2, 0] := by
      simp [sortPermutation, sortPermutationInner, List.mergeSort, List.splitInTwo,
        List.merge, keyComp, compareValues, compareRawValues, List.range,
        List.range.loop]
    exact ((c3_null_placement [some 2, none, some 1]).2.2.1 .Ascending [1, 2, 0] hp).1
  · have hp₁ : sortPermutation [⟨[some 2, none, some 1], .Ascending, .Before⟩]
        = .ok [1, 2, 0] := by
      simp [sortPermutation, sortPermutationInner, List.mergeSort, List.splitInTwo,
        List.merge, keyComp, compareValues, compareRawValues, List.range,
        List.range.loop]
    have hp₂ : sortPermutation [⟨[some 2, none, some 1], .Descending, .Before⟩]
        = .ok [1, 0, 2] := by
      simp [sortPermutation, sortPermutationInner, List.mergeSort, List.splitInTwo,
        List.merge, keyComp, compareValues, compareRawValues, List.range,
        List.range.loop]
    have h := ((c3_null_placement [some 2, none, some 1]).2.2.2.2 .Before
      [1, 2, 0] [1, 0, 2] hp₁ hp₂).1
    simpa [notNullRun, isNullCell, cellVal, List.filter] using h

/-- Witness for C2: a two-chunk column permuted by the rotation `[2, 0, 1]`
(row 0 of the result is input row 2), and the identity fast path on the
same table. -/
theorem c2_witness :
    ((permuteTable [⟨[[some 10, none], [some 30]]⟩] [2, 0, 1]).getD 0 default).cellAt 0
      = some 30 ∧
    permuteTable [⟨[[some 10, none], [some 30]]⟩] [0, 1, 2]
      = [⟨[[some 10, none], [some 30]]⟩] := by
  constructor
  · have h := (c2_permute_rows [⟨[[some 10, none], [some 30]]⟩] [2, 0, 1] 3
      rfl (by decide) (by decide)).1 0 0 (by decide) (by decide)
    rw [h]
    rfl
  · exact (c2_permute_rows [⟨[[some 10, none], [some 30]]⟩] [0, 1, 2] 3
      rfl (by decide) (by decide)).2.1 (by decide)

end Dataframes.Sorting

/-! ## Lemmas: expression interpreter -/

namespace Dataframes.Interp

lemma mapM_list_ok {f : Nat → Except String CVal} :
    ∀ {xs : List Nat} {l : List CVal}, xs.mapM f = .ok l →
      l.length = xs.length ∧
        ∀ i, i < xs.length → f (xs.getD i 0) = .ok (l.getD i (.b false)) := by
  intro xs
  induction xs with
  | nil =>
    intro l h
    simp only [List.mapM_nil] at h
    have hl : l = [] :=
      (Except.ok.inj (show Except.ok [] = .ok l from h)).symm
    subst hl
    exact ⟨rfl, by intro i hi; simp at hi⟩
  | cons a t ih =>
    intro l h
    rw [List.mapM_cons] at h
    cases hfa : f a with
    | error e =>
      rw [hfa] at h
      exact Except.noConfusion
        (show (Except.error e : Except String (List CVal)) = .ok l from h)
    | ok b =>
      rw [hfa] at h
      cases hft : t.mapM f with
      | error e =>
        rw [hft] at h
        exact Except.noConfusion
          (show (Except.error e : Except String (List CVal)) = .ok l from h)
      | ok bs =>
        rw [hft] at h
        have hl : l = b :: bs :=
          (Except.ok.inj (show Except.ok (b :: bs) = .ok l from h)).symm
        subst hl
        obtain ⟨hlen, hget⟩ := ih hft
        refine ⟨by simp [hlen], ?_⟩
        intro i hi
        cases i with
        | zero => simpa using hfa
        | succ m =>
          simp only [List.getD_cons_succ]
          exact hget m (by simpa using hi)

lemma execRaw_ok {op : BinOp} {lhs rhs : Field} {count : Nat} {l : List CVal}
    (h : execRaw op lhs rhs count = .ok l) :
    l.length = count ∧
      ∀ i, i < count → binOpExec op (fieldGet lhs i) (fieldGet rhs i)
        = .ok (l.getD i (.b false)) := by
  obtain ⟨hlen, hget⟩ := mapM_list_ok h
  refine ⟨by simpa using hlen, ?_⟩
  intro i hi
  have := hget i (by simpa using hi)
  rwa [List.getD_eq_getElem _ _ (by simpa using hi), List.getElem_range] at this

lemma fieldGet_typeName (f : Field) (i : Nat) :
    cvalTypeName (fieldGet f i) = kindName (elemKind f) := by
  cases f <;> rfl

lemma binOpExec_mismatch {lhs rhs : Field} (h : elemKind lhs ≠ elemKind rhs)
    (op : BinOp) (i : Nat) :
    binOpExec op (fieldGet lhs i) (fieldGet rhs i)
      = .error ("not supported operand types: "
          ++ kindName (elemKind lhs) ++ " and " ++ kindName (elemKind rhs)) := by
  cases lhs <;> cases rhs <;>
    first
      | exact absurd rfl h
      | (cases op <;> rfl)

lemma execRaw_mismatch {lhs rhs : Field} (h : elemKind lhs ≠ elemKind rhs)
    (op : BinOp) {count : Nat} (hc : 1 ≤ count) :
    execRaw op lhs rhs count
      = .error ("not supported operand types: "
          ++ kindName (elemKind lhs) ++ " and " ++ kindName (elemKind rhs)) := by
  obtain ⟨m, rfl⟩ : ∃ m, count = m + 1 := ⟨count - 1, by omega⟩
  rw [execRaw, List.range_succ_eq_map, List.mapM_cons, binOpExec_mismatch h op 0]
  rfl

end Dataframes.Interp

namespace Dataframes.Interp

lemma fieldFromColumn_multichunk {col : InterpColumn} (h : 2 ≤ col.chunks.length) :
    fieldFromColumn col = .error "not implemented: processing of chunked arrays" := by
  rcases col with ⟨chunks⟩
  rcases chunks with - | ⟨c, - | ⟨c2, rest⟩⟩
  · simp at h
  · simp at h
  · rfl

lemma evaluateValue_ok_refs {ip : Interpreter} :
    ∀ {e : Value} {f : Field}, evaluateValue ip e = .ok f →
      ∀ r ∈ e.refs, ∃ col, ip.columns.get? r = some col ∧ col.chunks.length = 1 := by
  intro e
  induction e with
  | columnReference refId =>
    intro f h r hr
    simp only [Value.refs, List.mem_singleton] at hr
    subst hr
    simp only [evaluateValue] at h
    cases hcol : ip.columns.get? r with
    | none =>
      rw [hcol] at h
      exact Except.noConfusion
        (show (Except.error "internal: column reference out of range"
          : Except String Field) = .ok f from h)
    | some col =>
      rw [hcol] at h
      refine ⟨col, rfl, ?_⟩
      rcases col with ⟨chunks⟩
      rcases chunks with - | ⟨c, - | ⟨c2, rest⟩⟩
      · exact Except.noConfusion
          (show (Except.error "not implemented: processing of chunked arrays"
            : Except String Field) = .ok f from h)
      · rfl
      · exact Except.noConfusion
          (show (Except.error "not implemented: processing of chunked arrays"
            : Except String Field) = .ok f from h)
  | literalInt v =>
    intro f h r hr
    simp [Value.refs] at hr
  | literalDouble v =>
    intro f h r hr
    simp [Value.refs] at hr
  | valueOperation what lhs rhs ihl ihr =>
    intro f h r hr
    simp only [evaluateValue] at h
    cases hl : evaluateValue ip lhs with
    | error e1 =>
      rw [hl] at h
      exact Except.noConfusion
        (show (Except.error e1 : Except String Field) = .ok f from h)
    | ok fl =>
      rw [hl] at h
      cases hrr : evaluateValue ip rhs with
      | error e2 =>
        rw [hrr] at h
        exact Except.noConfusion
          (show (Except.error e2 : Except String Field) = .ok f from h)
      | ok fr =>
        simp only [Value.refs, List.mem_append] at hr
        rcases hr with hr | hr
        · exact ihl hl r hr
        · exact ihr hrr r hr

lemma evaluate_cmp_operands_ok {ip : Interpreter} {w : PredicateFromValueOperator}
    {lhs rhs : Value} {res : List Nat}
    (h : evaluate ip (.fromValueOperation w lhs rhs) = .ok res) :
    (∃ fl, evaluateValue ip lhs = .ok fl) ∧ ∃ fr, evaluateValue ip rhs = .ok fr := by
  simp only [evaluate] at h
  cases hl : evaluateValue ip lhs with
  | error e1 =>
    rw [hl] at h
    exact Except.noConfusion
      (show (Except.error e1 : Except String (List Nat)) = .ok res from h)
  | ok fl =>
    rw [hl] at h
    cases hrr : evaluateValue ip rhs with
    | error e2 =>
      rw [hrr] at h
      exact Except.noConfusion
        (show (Except.error e2 : Except String (List Nat)) = .ok res from h)
    | ok fr => exact ⟨⟨fl, rfl⟩, ⟨fr, rfl⟩⟩

/-- C5: a column reference to a column stored in more than one chunk fails
with the unsupported-shape error ("not implemented: processing of chunked
arrays"), both at the guard itself and through expression evaluation; any
evaluation that succeeds only ever referenced single-chunk columns (so one
chunk of a multi-chunk column is never silently read); and a single-chunk
reference succeeds, wrapping the chunk's buffer without copying. -/
theorem c5_multichunk_guard :
    (∀ col : InterpColumn, 2 ≤ col.chunks.length →
      fieldFromColumn col = .error "not implemented: processing of chunked arrays") ∧
    (∀ c : Chunk, fieldFromColumn ⟨[c]⟩ = .ok (chunkToField c)) ∧
    (∀ (ip : Interpreter) (refId : Nat) (col : InterpColumn),
      ip.columns.get? refId = some col → 2 ≤ col.chunks.length →
      evaluateValue ip (.columnReference refId)
        = .error "not implemented: processing of chunked arrays") ∧
    (∀ (ip : Interpreter) (e : Value) (f : Field), evaluateValue ip e = .ok f →
      ∀ r ∈ e.refs, ∃ col, ip.columns.get? r = some col ∧ col.chunks.length = 1) ∧
    (∀ (ip : Interpreter) (w : PredicateFromValueOperator) (lhs rhs : Value)
      (res : List Nat), evaluate ip (.fromValueOperation w lhs rhs) = .ok res →
      ∀ r ∈ lhs.refs ++ rhs.refs,
        ∃ col, ip.columns.get? r = some col ∧ col.chunks.length = 1) := by
  refine ⟨fun col h => fieldFromColumn_multichunk h, fun c => rfl, ?_, ?_, ?_⟩
  · intro ip refId col hget h
    simp only [evaluateValue, hget]
    exact fieldFromColumn_multichunk h
  · intro ip e f h r hr
    exact evaluateValue_ok_refs h r hr
  · intro ip w lhs rhs res h r hr
    obtain ⟨⟨fl, hl⟩, ⟨fr, hrr⟩⟩ := evaluate_cmp_operands_ok h
    rcases List.mem_append.mp hr with hr | hr
    · exact evaluateValue_ok_refs hl r hr
    · exact evaluateValue_ok_refs hrr r hr

/-- Witness for C5: a two-chunk int column fails the guard, a one-chunk
column is wrapped unchanged. -/
theorem c5_witness :
    fieldFromColumn ⟨[.ints [1], .ints [2]]⟩
      = .error "not implemented: processing of chunked arrays" ∧
    fieldFromColumn ⟨[.ints [1, 2, 3]]⟩ = .ok (.arrInt [1, 2, 3]) :=
  ⟨c5_multichunk_guard.1 ⟨[.ints [1], .ints [2]]⟩ (by decide),
   c5_multichunk_guard.2.1 (.ints [1, 2, 3])⟩

/-- C4: scalar broadcasting.  For every instantiated operator kernel, an
array operand paired with a same-element-type scalar yields one element per
row, each the operator applied to the array element and the same scalar
value — all four array/scalar pairings the `Field` variant admits (int64
and double element types, scalar on either side); concretely,
`column + literal` on `[1,2,3]` with literal `10` evaluates to `[11,12,13]`
and `column > literal` with literal `2` evaluates to the byte mask
`[0,0,1]` (one byte per row, nonzero = true). -/
theorem c4_broadcast :
    (∀ (op : BinOp) (a : List Int) (s : Int) (count : Nat) (l : List CVal),
      execRaw op (.arrInt a) (.intS s) count = .ok l →
      l.length = count ∧ ∀ i, i < count →
        binOpExec op (.i (a.getD i 0)) (.i s) = .ok (l.getD i (.b false))) ∧
    (∀ (op : BinOp) (a : List Int) (s : Int) (count : Nat) (l : List CVal),
      execRaw op (.intS s) (.arrInt a) count = .ok l →
      l.length = count ∧ ∀ i, i < count →
        binOpExec op (.i s) (.i (a.getD i 0)) = .ok (l.getD i (.b false))) ∧
    (∀ (op : BinOp) (a : List Float) (s : Float) (count : Nat) (l : List CVal),
      execRaw op (.arrDouble a) (.doubleS s) count = .ok l →
      l.length = count ∧ ∀ i, i < count →
        binOpExec op (.d (a.getD i 0)) (.d s) = .ok (l.getD i (.b false))) ∧
    (∀ (op : BinOp) (a : List Float) (s : Float) (count : Nat) (l : List CVal),
      execRaw op (.doubleS s) (.arrDouble a) count = .ok l →
      l.length = count ∧ ∀ i, i < count →
        binOpExec op (.d s) (.d (a.getD i 0)) = .ok (l.getD i (.b false))) ∧
    evaluateValue ⟨[⟨[.ints [1, 2, 3]]⟩], 3⟩
      (.valueOperation .Plus (.columnReference 0) (.literalInt 10))
      = .ok (.arrInt [11, 12, 13]) ∧
    evaluate ⟨[⟨[.ints [1, 2, 3]]⟩], 3⟩
      (.fromValueOperation .Greater (.columnReference 0) (.literalInt 2))
      = .ok [0, 0, 1] := by
  refine ⟨?_, ?_, ?_, ?_, rfl, rfl⟩
  · intro op a s count l h
    simpa [fieldGet] using execRaw_ok h
  · intro op a s count l h
    simpa [fieldGet] using execRaw_ok h
  · intro op a s count l h
    simpa [fieldGet] using execRaw_ok h
  · intro op a s count l h
    simpa [fieldGet] using execRaw_ok h

/-- Witness for C4: the broadcast theorem applied at `[1,2,3] + 10`, row 0. -/
theorem c4_witness :
    binOpExec .plus (.i (List.getD [1, 2, 3] 0 0)) (.i 10)
      = .ok (List.getD [CVal.i 11, .i 12, .i 13] 0 (.b false)) :=
  (c4_broadcast.1 .plus [1, 2, 3] 10 3 [.i 11, .i 12, .i 13] rfl).2 0 (by decide)

/-- C8: a `PredicateOperation` (boolean-combinator) node always fails with
the unimplemented-feature error, without evaluating its children; every
predicate whose evaluation succeeds is a leaf comparison
(`PredicateFromValueOperation`). -/
theorem c8_predicate_operation :
    (∀ (ip : Interpreter) (p q : Predicate),
      evaluate ip (.predicateOperation p q)
        = .error "not implemented: PredicateOperation") ∧
    (∀ (ip : Interpreter) (p : Predicate) (res : List Nat),
      evaluate ip p = .ok res → ∃ w lhs rhs, p = .fromValueOperation w lhs rhs) := by
  refine ⟨fun ip p q => rfl, ?_⟩
  intro ip p res h
  cases p with
  | fromValueOperation w lhs rhs => exact ⟨w, lhs, rhs, rfl⟩
  | predicateOperation p q =>
    exact Except.noConfusion
      (show (Except.error "not implemented: PredicateOperation"
        : Except String (List Nat)) = .ok res from h)

/-- Witness for C8: a successfully evaluated predicate (a comparison of two
literals over a zero-row table) is a leaf comparison node. -/
theorem c8_witness :
    ∃ w lhs rhs, Predicate.fromValueOperation .Greater (.literalInt 1) (.literalInt 2)
      = Predicate.fromValueOperation w lhs rhs :=
  c8_predicate_operation.2 ⟨[], 0⟩ _ [] rfl

/-- C6 counterexample, two parts at concrete inputs.  First, the
type-mismatch error does **not** carry the operator: a `Plus` value
operation and a `Greater` comparison predicate over the same mismatched
operands (a string column and an int64 literal, 3 rows) fail with the
identical message, which names only the two operand element types, so the
error cannot identify the operator.  Second, on a zero-row table the same
undefined combination does not fail at all: the per-row loop never runs
and an (empty string-array) value is produced. -/
theorem c6_counterexample :
    evaluateValue ⟨[⟨[.strings ["a", "b", "c"]]⟩], 3⟩
      (.valueOperation .Plus (.columnReference 0) (.literalInt 5))
      = .error "not supported operand types: std::string and int64_t" ∧
    evaluate ⟨[⟨[.strings ["a", "b", "c"]]⟩], 3⟩
      (.fromValueOperation .Greater (.columnReference 0) (.literalInt 5))
      = .error "not supported operand types: std::string and int64_t" ∧
    evaluateValue ⟨[⟨[.strings ["a", "b", "c"]]⟩], 0⟩
      (.valueOperation .Plus (.columnReference 0) (.literalInt 5))
      = .ok (.arrString []) :=
  ⟨rfl, rfl, rfl⟩

/-- C6 amended: for every operator applied to an operand-kind combination
it does not define — the kernels are defined only for identical operand
element types, and the operators that reach a kernel are `Plus` and the
three comparisons — evaluation on a table with at least one row fails with
a type-mismatch error rather than producing a value, and the error carries
both operand element-type identifiers (but not the operator). -/
theorem c6_type_mismatch :
    (∀ (ip : Interpreter) (lhs rhs : Value) (fl fr : Field),
      evaluateValue ip lhs = .ok fl → evaluateValue ip rhs = .ok fr →
      elemKind fl ≠ elemKind fr → 1 ≤ ip.numRows →
      evaluateValue ip (.valueOperation .Plus lhs rhs)
        = .error ("not supported operand types: "
            ++ kindName (elemKind fl) ++ " and " ++ kindName (elemKind fr))) ∧
    (∀ (ip : Interpreter) (w : PredicateFromValueOperator) (lhs rhs : Value)
      (fl fr : Field),
      evaluateValue ip lhs = .ok fl → evaluateValue ip rhs = .ok fr →
      elemKind fl ≠ elemKind fr → 1 ≤ ip.numRows →
      evaluate ip (.fromValueOperation w lhs rhs)
        = .error ("not supported operand types: "
            ++ kindName (elemKind fl) ++ " and " ++ kindName (elemKind fr))) := by
  constructor
  · intro ip lhs rhs fl fr hl hr hk hrows
    simp only [evaluateValue, hl, hr]
    show (execRaw .plus fl fr ip.numRows).map (packLike fl) = _
    rw [execRaw_mismatch hk .plus hrows]
    rfl
  · intro ip w lhs rhs fl fr hl hr hk hrows
    simp only [evaluate, hl, hr]
    cases w
    · show (execRaw .greaterThan fl fr ip.numRows).map (fun l => l.map toByte) = _
      rw [execRaw_mismatch hk .greaterThan hrows]
      rfl
    · show (execRaw .lessThan fl fr ip.numRows).map (fun l => l.map toByte) = _
      rw [execRaw_mismatch hk .lessThan hrows]
      rfl
    · show (execRaw .equalTo fl fr ip.numRows).map (fun l => l.map toByte) = _
      rw [execRaw_mismatch hk .equalTo hrows]
      rfl

/-- Witness for C6 (amended form): a one-row string column plus an int64
literal, and a `Lesser` comparison of a double literal against the same
string column. -/
theorem c6_witness :
    evaluateValue ⟨[⟨[.strings ["x"]]⟩], 1⟩
      (.valueOperation .Plus (.columnReference 0) (.literalInt 1))
      = .error "not supported operand types: std::string and int64_t" ∧
    evaluate ⟨[⟨[.strings ["x"]]⟩], 1⟩
      (.fromValueOperation .Lesser (.literalDouble 2.5) (.columnReference 0))
      = .error "not supported operand types: double and std::string" :=
  ⟨c6_type_mismatch.1 ⟨[⟨[.strings ["x"]]⟩], 1⟩ (.columnReference 0) (.literalInt 1)
    (.arrString ["x"]) (.intS 1) rfl rfl (by decide) (by decide),
   c6_type_mismatch.2 ⟨[⟨[.strings ["x"]]⟩], 1⟩ .Lesser (.literalDouble 2.5)
    (.columnReference 0) (.doubleS 2.5) (.arrString ["x"]) rfl rfl
    (by decide) (by decide)⟩

/-- C10 counterexample: on a zero-row table the elementwise loop body never
runs, so adding a double literal to an int64 column returns an (empty)
array value instead of raising the type-mismatch error. -/
theorem c10_counterexample :
    evaluateValue ⟨[⟨[.ints []]⟩], 0⟩
      (.valueOperation .Plus (.columnReference 0) (.literalDouble 1.5))
      = .ok (.arrInt []) := rfl

/-- C10 amended: every instantiated kernel is defined only for identical
operand element types.  With at least one row, any operand pair of
differing element kinds raises the type-mismatch error naming both kinds —
no conversion or promotion; in particular an int64 column plus a double
literal fails. -/
theorem c10_no_promotion :
    (∀ (op : BinOp) (lhs rhs : Field) (count : Nat),
      elemKind lhs ≠ elemKind rhs → 1 ≤ count →
      execRaw op lhs rhs count
        = .error ("not supported operand types: "
            ++ kindName (elemKind lhs) ++ " and " ++ kindName (elemKind rhs))) ∧
    (∀ (a : List Int) (c : Float) (rows : Nat), 1 ≤ rows →
      evaluateValue ⟨[⟨[.ints a]⟩], rows⟩
        (.valueOperation .Plus (.columnReference 0) (.literalDouble c))
        = .error "not supported operand types: int64_t and double") := by
  refine ⟨fun op lhs rhs count hk hc => execRaw_mismatch hk op hc, ?_⟩
  intro a c rows h
  have hm : execRaw .plus (.arrInt a) (.doubleS c) rows
      = .error "not supported operand types: int64_t and double" := by
    have hk : elemKind (.arrInt a) ≠ elemKind (.doubleS c) := by
      simp [elemKind]
    simpa [kindName, elemKind] using execRaw_mismatch hk .plus h
  show (execRaw .plus (.arrInt a) (.doubleS c) rows).map (packLike (.arrInt a)) = _
  rw [hm]
  rfl

/-- Witness for C10 (amended form) at a one-row int column. -/
theorem c10_witness :
    evaluateValue ⟨[⟨[.ints [7]]⟩], 1⟩
      (.valueOperation .Plus (.columnReference 0) (.literalDouble 1.5))
      = .error "not supported operand types: int64_t and double" :=
  c10_no_promotion.2 [7] 1.5 1 (by decide)

end Dataframes.Interp

/-! ## Lemmas: XLSX import -/

namespace Dataframes.Xlsx

lemma importTypes_length (sheet : Sheet) (columnTypes : List ColumnType) :
    (importTypes sheet columnTypes).length
      = max columnTypes.length sheet.highestColumn := by
  simp only [importTypes]
  by_cases h : columnTypes.length < sheet.highestColumn <;>
    simp [h, List.length_append] <;> omega

lemma importTypes_getD_defaulted (sheet : Sheet) (columnTypes : List ColumnType)
    {j : Nat} (hlo : columnTypes.length ≤ j)
    (hhi : j < (importTypes sheet columnTypes).length) :
    (importTypes sheet columnTypes).getD j default
      = (⟨.eString, false⟩ : ColumnType) := by
  rw [importTypes_length] at hhi
  simp only [importTypes]
  by_cases h : columnTypes.length < sheet.highestColumn
  · simp only [h, if_true]
    rw [List.getD_eq_getElem?_getD,
      List.getElem?_append_left (by simp; omega),
      List.getElem?_append_right hlo,
      List.getElem?_replicate]
    have hin : j - columnTypes.length < sheet.highestColumn - columnTypes.length := by
      omega
    simp [hin]
  · exfalso
    omega

lemma readXlsx_getD (sheet : Sheet) (useHdr : Bool) (columnTypes : List ColumnType)
    {j : Nat} (hj : j < (importTypes sheet columnTypes).length) :
    (readXlsx sheet useHdr columnTypes).getD j default
      = ⟨(importTypes sheet columnTypes).getD j default,
         importCells sheet ((importTypes sheet columnTypes).getD j default) j useHdr⟩ := by
  simp only [readXlsx, List.enum]
  rw [List.getD_eq_getElem?_getD, List.getElem?_map, List.getElem?_enumFrom,
    List.getElem?_eq_getElem hj]
  simp [List.getD_eq_getElem?_getD, List.getElem?_eq_getElem hj]

end Dataframes.Xlsx

namespace Dataframes.Xlsx

/-- C9 counterexample: the importer does not mark a missing cell's row value
absent when the target column is non-nullable.  A one-column, one-row sheet
whose only cell reference has no cell, imported with no type information
(the column therefore defaults to non-nullable text), produces a present
empty-string value in row 0 — `some ""`, not an absent entry. -/
theorem c9_counterexample :
    readXlsx ⟨1, 1, fun _ _ => false, fun _ _ => none⟩ false []
      = [⟨⟨.eString, false⟩, [some (.s "")]⟩] := rfl

/-- C9 amended: the importer produces one column per target logical type —
the caller's type list extended to the sheet's column count, absent type
information defaulting to non-nullable text; each sheet column's cells are
one `buildCell` per data row; and a cell whose logical reference has no
cell in the sheet, or whose cell has no content, is routed through the
missing-value path: appended as null when the column is nullable and as
the type's default value when it is not.  A cell with content is appended
as its converted value. -/
theorem c9_import (sheet : Sheet) (useHdr : Bool) (columnTypes : List ColumnType) :
    (readXlsx sheet useHdr columnTypes).length
      = max columnTypes.length sheet.highestColumn ∧
    (∀ j : Nat, columnTypes.length ≤ j →
      j < (readXlsx sheet useHdr columnTypes).length →
      ((readXlsx sheet useHdr columnTypes).getD j default).type
        = (⟨.eString, false⟩ : ColumnType)) ∧
    (∀ j : Nat, j < (readXlsx sheet useHdr columnTypes).length →
      (readXlsx sheet useHdr columnTypes).getD j default
        = ⟨(importTypes sheet columnTypes).getD j default,
           importCells sheet ((importTypes sheet columnTypes).getD j default) j useHdr⟩) ∧
    (∀ (ct : ColumnType) (c r : Nat),
      sheet.hasCell c r = false ∨ sheet.cellContent c r = none →
      buildCell sheet ct c r
        = if ct.nullable then none else some (defaultValue ct.type)) ∧
    (∀ (ct : ColumnType) (c r : Nat) (x : XCell),
      sheet.hasCell c r = true → sheet.cellContent c r = some x →
      buildCell sheet ct c r = some (convertCell ct.type x)) := by
  have hlen : (readXlsx sheet useHdr columnTypes).length
      = (importTypes sheet columnTypes).length := by
    simp [readXlsx]
  refine ⟨by rw [hlen, importTypes_length], ?_, ?_, ?_, ?_⟩
  · intro j hlo hhi
    rw [hlen] at hhi
    rw [readXlsx_getD sheet useHdr columnTypes hhi]
    exact importTypes_getD_defaulted sheet columnTypes hlo hhi
  · intro j hj
    rw [hlen] at hj
    exact readXlsx_getD sheet useHdr columnTypes hj
  · intro ct c r h
    rcases h with h | h
    · simp [buildCell, h, addMissing]
    · by_cases hc : sheet.hasCell c r <;>
        simp [buildCell, hc, addFromCell, h, addMissing]
  · intro ct c r x h1 h2
    simp [buildCell, h1, addFromCell, h2]

/-- Witness for C9 (amended form): a nullable int column really appends a
null for a missing cell. -/
theorem c9_witness :
    buildCell ⟨1, 1, fun _ _ => false, fun _ _ => none⟩ ⟨.eInt, true⟩ 0 0
      = if (⟨Interp.ElemKind.eInt, true⟩ : ColumnType).nullable then none
        else some (defaultValue (⟨Interp.ElemKind.eInt, true⟩ : ColumnType).type) :=
  (c9_import ⟨1, 1, fun _ _ => false, fun _ _ => none⟩ false []).2.2.2.1
    ⟨.eInt, true⟩ 0 0 (Or.inl rfl)

end Dataframes.Xlsx
